import Mathlib

/-!
Verification of the plan-act-reflect agent workbench core against its source.

Shallow embedding of `src/agent_workbench`:
`hitl.py` (approval store), `skills/registry.py` (skills registry),
`planner_hier.py` (hierarchical plan builder), `trace.py` (run trace files)
and the scheduling loop of `agent.py` (`Agent.run_task`).

Modelling conventions: Python dicts become association lists in insertion
order; JSON-ish argument mappings and payloads become string key/value lists;
`uuid4` identifiers become distinct counters; `time.time()` timestamps become
supplied naturals; a Python exception crossing a function boundary becomes
`Except.error`.
-/

namespace AgentWorkbench

/-- Argument mappings and result payloads (Python `Dict[str, Any]`) are
modelled as string key/value lists. -/
abbrev Args := List (String × String)

/-! ## hitl.py -/

/-- `hitl.ApprovalItem`: one human-in-the-loop decision record. -/
structure ApprovalItem where
  id : String
  action : String
  reason : String
  created_at : Nat
  status : String := "pending"
  step_id : Option String := none
deriving DecidableEq

/-- `hitl.ApprovalStore.items`: a dict keyed by `item.id`, modelled as its
values in insertion order (item ids are unique, being uuid4 strings). -/
abbrev ApprovalStore := List ApprovalItem

/-- `hitl.ApprovalStore.create`: append a fresh item with status "pending".
`id` stands for the generated uuid4 string and `created_at` for `time.time()`. -/
def ApprovalStore.create (s : ApprovalStore) (id action reason : String)
    (created_at : Nat) (step_id : Option String) : ApprovalStore × ApprovalItem :=
  let item : ApprovalItem := ⟨id, action, reason, created_at, "pending", step_id⟩
  (s ++ [item], item)

/-- `self.items.get(approval_id)`: dict lookup by id. -/
def ApprovalStore.get : ApprovalStore → String → Option ApprovalItem
  | [], _ => none
  | it :: rest, approval_id =>
    if it.id == approval_id then some it else ApprovalStore.get rest approval_id

/-- `hitl.ApprovalStore.list`: the pending items. -/
def ApprovalStore.listPending (s : ApprovalStore) : ApprovalStore :=
  s.filter (fun it => it.status == "pending")

/-- The in-place mutation `item.status = new_status` performed on the item
stored under `approval_id` (a dict update: only the entry with that id
changes). -/
def ApprovalStore.setStatus : ApprovalStore → String → String → ApprovalStore
  | [], _, _ => []
  | it :: rest, approval_id, new_status =>
    (if it.id == approval_id then { it with status := new_status } else it) ::
      ApprovalStore.setStatus rest approval_id new_status

/-- `hitl.ApprovalStore.approve`: whenever the id is present the item's status
is set to "approved" and the call returns true — the source has no check that
the current status is "pending"; false is returned only for an unknown id. -/
def ApprovalStore.approve (s : ApprovalStore) (approval_id : String) :
    ApprovalStore × Bool :=
  match ApprovalStore.get s approval_id with
  | none => (s, false)
  | some _ => (ApprovalStore.setStatus s approval_id "approved", true)

/-- `hitl.ApprovalStore.reject`: same shape as `approve` with status "rejected". -/
def ApprovalStore.reject (s : ApprovalStore) (approval_id : String) :
    ApprovalStore × Bool :=
  match ApprovalStore.get s approval_id with
  | none => (s, false)
  | some _ => (ApprovalStore.setStatus s approval_id "rejected", true)

/-! ## skills/registry.py and skills/base.py -/

/-- `skills.base.SkillContext`. -/
structure SkillContext where
  session_id : String

/-- The success/error shape of the result dict a skill run returns
(`{"success": ..., "error": ...}`); other payload keys are not read by any
claim and are omitted. -/
structure SkillResult where
  success : Bool
  error : Option String := none
deriving DecidableEq

/-- `skills.base.Skill`: a name, a declared jsonschema (modelled by the
predicate "validation of these args succeeds"), and `run`. `run` returns
`Except.error` when the skill's execution raises an exception. -/
structure Skill where
  name : String
  validArgs : Args → Bool
  run : SkillContext → Args → Except String SkillResult

/-- `registry.SkillsRegistry.skills`: a dict from name to skill in insertion
order. -/
abbrev SkillsDict := List (String × Skill)

/-- Python dict assignment `d[k] = v`: replaces the entry in place when the key
exists (keys are unique), otherwise appends a new entry. -/
def dictSet : SkillsDict → String → Skill → SkillsDict
  | [], k, v => [(k, v)]
  | p :: rest, k, v =>
    if p.1 == k then (k, v) :: rest else p :: dictSet rest k v

/-- Registering a skill is the assignment `self.skills[skill.name] = skill`
performed for each accepted builtin in `SkillsRegistry.load_builtins`. -/
def SkillsRegistry.register (d : SkillsDict) (s : Skill) : SkillsDict :=
  dictSet d s.name s

/-- `registry.SkillsRegistry.get`: `self.skills.get(name)`, dict lookup. -/
def SkillsRegistry.get : SkillsDict → String → Option Skill
  | [], _ => none
  | p :: rest, name => if p.1 == name then some p.2 else SkillsRegistry.get rest name

/-- The registry's resolvable capability names, in registration order
(`SkillsRegistry.list` returns these sorted; the set is the same). -/
def SkillsRegistry.names (d : SkillsDict) : List String :=
  d.map (fun p => p.1)

/-- `registry.SkillsRegistry.execute`: an unknown name or a jsonschema
validation failure is converted to a `success := false` result, but the call
`skill.run(ctx, args)` itself is not wrapped in any try/except, so an exception
it raises (`Except.error`) propagates to the caller. -/
def SkillsRegistry.execute (d : SkillsDict) (name : String) (ctx : SkillContext)
    (args : Args) : Except String SkillResult :=
  match SkillsRegistry.get d name with
  | none => .ok ⟨false, some ("Unknown skill: " ++ name)⟩
  | some skill =>
    if skill.validArgs args then skill.run ctx args
    else .ok ⟨false, some "Invalid args"⟩

/-- The five builtin skills of `skills/builtin` in the order `load_builtins`
constructs them. Their run bodies call external collaborators (network,
filesystem, python sandbox, vector index); no claim depends on those bodies,
so each is modelled as accepting its arguments and succeeding. -/
def builtinSkills : List Skill :=
  [⟨"web.fetch", fun _ => true, fun _ _ => .ok ⟨true, none⟩⟩,
   ⟨"fs.read", fun _ => true, fun _ _ => .ok ⟨true, none⟩⟩,
   ⟨"fs.write", fun _ => true, fun _ _ => .ok ⟨true, none⟩⟩,
   ⟨"python.run", fun _ => true, fun _ _ => .ok ⟨true, none⟩⟩,
   ⟨"rag.search", fun _ => true, fun _ _ => .ok ⟨true, none⟩⟩]

/-- `registry.SkillsRegistry.load_builtins`: each builtin is registered iff the
configured allowed set is empty (falsy in `not self.allowed`) or contains its
name. -/
def SkillsRegistry.load_builtins (allowed : List String) : SkillsDict :=
  builtinSkills.foldl
    (fun d skill =>
      if allowed.isEmpty || allowed.contains skill.name then
        SkillsRegistry.register d skill
      else d)
    []

/-! ## planner_hier.py -/

/-- `planner_hier.PlanNode`. The `id` stands for the generated uuid4 string;
the builder's candidates get the distinct ids 0, 1, 2 in construction order. -/
structure PlanNode where
  id : Nat
  skill : String
  args : Args
  status : String := "pending"
deriving DecidableEq

/-- The `networkx.DiGraph` built by `Manager.build_plan`: nodes carrying their
`PlanNode` data in insertion order, and directed edges between node ids. -/
structure PlanGraph where
  nodes : List PlanNode
  edges : List (Nat × Nat)
deriving DecidableEq

/-- ASCII lowercasing of one character (`str.lower` on the goals used here). -/
def charLower (c : Char) : Char :=
  if 65 ≤ c.toNat ∧ c.toNat ≤ 90 then Char.ofNat (c.toNat + 32) else c

/-- Substring test on character lists (Python `needle in hay`). -/
def isInfixOfL (n : List Char) : List Char → Bool
  | [] => n.isEmpty
  | b :: bs => n.isPrefixOf (b :: bs) || isInfixOfL n bs

/-- Python `"save" in goal.lower()`. -/
def containsSave (goal : String) : Bool :=
  isInfixOfL "save".toList (goal.toList.map charLower)

/-- The candidate steps `Manager.build_plan` proposes for a goal, before the
allow-list filter. -/
def candidateSteps (goal : String) : List PlanNode :=
  if containsSave goal then
    [⟨0, "web.fetch", [("url", "https://example.com"), ("max_chars", "5000")], "pending"⟩,
     ⟨1, "python.run", [("code", "print(Hello, World!)")], "pending"⟩,
     ⟨2, "fs.write", [("path", "brief.md"), ("content", "Example content")], "pending"⟩]
  else
    [⟨0, "rag.search", [("query", goal), ("k", "3")], "pending"⟩]

/-- The loop of `Manager.build_plan`: add each allowed node, draw an edge from
the previously added node, and remember it as `prev`; skipped nodes leave
`prev` unchanged. -/
def buildChainAux (allowed : List String) :
    Option PlanNode → PlanGraph → List PlanNode → PlanGraph
  | _, g, [] => g
  | prev, g, node :: rest =>
    if allowed.contains node.skill then
      buildChainAux allowed (some node)
        ⟨g.nodes ++ [node],
         g.edges ++ (match prev with | some p => [(p.id, node.id)] | none => [])⟩
        rest
    else
      buildChainAux allowed prev g rest

/-- `planner_hier.Manager.build_plan`, with the Manager's allowed-skill set
passed explicitly. -/
def build_plan (allowed : List String) (goal : String) : PlanGraph :=
  buildChainAux allowed none ⟨[], []⟩ (candidateSteps goal)

/-- The edge list of a linear chain over `l` in order: consecutive id pairs.
Used to state what `build_plan` produces. -/
def chainEdges : List PlanNode → List (Nat × Nat)
  | [] => []
  | [_] => []
  | a :: b :: rest => (a.id, b.id) :: chainEdges (b :: rest)

/-- The chain edges produced by the builder loop when `prev` is the node added
last before the list: an edge out of `prev` first, then the chain. -/
def chainEdgesFrom : Option PlanNode → List PlanNode → List (Nat × Nat)
  | some p, l => chainEdges (p :: l)
  | none, l => chainEdges l

/-! ## trace.py -/

/-- One line of a run's `.jsonl` trace file: the appended event dict after
`event["ts"] = time.time()` (payload plus timestamp), deserialized. -/
structure StoredEvent where
  payload : Args
  ts : Nat
deriving DecidableEq

/-- The trace export directory: each run id names an append-only `.jsonl`
file, modelled as the list of its deserialized lines; a missing file is the
empty list. -/
abbrev TraceDir := String → List StoredEvent

/-- `trace.TraceWriter.append`: stamp the event with `ts` and append one line
to the run's file. -/
def TraceWriter.append (d : TraceDir) (run_id : String) (event : Args) (ts : Nat) :
    TraceDir :=
  fun r => if r == run_id then d r ++ [⟨event, ts⟩] else d r

/-- `trace.TraceReader.read`: yield the deserialized lines of the run's file,
in file order. -/
def TraceReader.read (d : TraceDir) (run_id : String) : List StoredEvent :=
  d run_id

/-- A finite sequence of appends performed through the writer, in order. -/
def TraceWriter.appendAll (d : TraceDir) (run_id : String)
    (events : List (Args × Nat)) : TraceDir :=
  events.foldl (fun acc e => TraceWriter.append acc run_id e.1 e.2) d

/-! ## agent.py: `Agent.run_task` -/

/-- The two fields of `reflection.ReflectionResult` the scheduling loop reads
(the score is compared against the 0.8 threshold, modelled exactly in ℚ). -/
structure ReflectionResult where
  usefulness_score : ℚ
  should_continue : Bool
deriving DecidableEq

/-- `agent.AgentStep`: the per-step record appended to `steps_taken`
(timestamps omitted). -/
structure AgentStep where
  step_number : Int
  tool_name : String
  tool_input : Args
  tool_result : SkillResult
  reflection : ReflectionResult
deriving DecidableEq

/-- The trace events `Agent.run_task` appends through the `TraceWriter`
(payload fields that no claim reads, such as timestamps and the cost snapshot
on `done`, are omitted). -/
inductive TraceEvent where
  | plan_start (goal : String)
  | plan_graph (nodes : List PlanNode) (edges : List (Nat × Nat))
  | approval (id : String) (action : String) (reason : String)
  | tool_call (name : String) (args : Args) (result : SkillResult)
  | done (status : String)
deriving DecidableEq

/-- `agent.AgentResult`, restricted to the fields the claims read, plus the
run's trace file content. -/
structure AgentResult where
  status : String
  steps_taken : List AgentStep
  trace : List TraceEvent
deriving DecidableEq

/-- `planner.PlanStep`: one step of a flat plan. -/
structure FlatStep where
  tool_name : String
  tool_input : Args
  rationale : String
deriving DecidableEq

/-- The run-local state threaded through the flat-mode loop. -/
structure FlatState where
  trace : List TraceEvent
  steps_taken : List AgentStep
deriving DecidableEq

/-- `Agent.run_task` terminal classification (the code after the while loop):
`step_count >= max_steps` gives "stopped"; otherwise any recorded step with
usefulness score above 0.8 gives "success"; otherwise "failure". -/
def finalStatus (step_count max_steps : Int) (steps_taken : List AgentStep) : String :=
  if max_steps ≤ step_count then "stopped"
  else if steps_taken.any (fun s => (8 : ℚ) / 10 < s.reflection.usefulness_score) then
    "success"
  else "failure"

/-- The while loop of `Agent.run_task` in "plan_execute" (flat) mode.
`fuel` counts the remaining iterations of `while step_count < max_steps`;
`step_count` is incremented at the top of each iteration. A flat step carries
no "skill" key, so the risky-action gate never fires and dispatch goes through
`Agent._execute_tool`, which catches its own exceptions (`execTool` is total).
The feedback evaluator is the deterministic stub `reflect`, indexed by the
step number. When `step_count` exceeds the plan length the source falls into
the hierarchical branch and reads the local variable `graph`, which is never
assigned in this mode: the run raises `UnboundLocalError`, modelled as
`Except.error`. -/
def runFlatLoop (execTool : String → Args → SkillResult)
    (reflect : Nat → ReflectionResult) (plan : List FlatStep) :
    Nat → Int → FlatState → Except String (Int × FlatState)
  | 0, step_count, st => .ok (step_count, st)
  | fuel + 1, step_count, st =>
    let sc := step_count + 1
    match plan[(sc - 1).toNat]? with
    | none => .error "UnboundLocalError: local variable graph referenced before assignment"
    | some step =>
      let result := execTool step.tool_name step.tool_input
      let refl := reflect sc.toNat
      let st' : FlatState :=
        ⟨st.trace ++ [TraceEvent.tool_call step.tool_name step.tool_input result],
         st.steps_taken ++ [⟨sc, step.tool_name, step.tool_input, result, refl⟩]⟩
      if refl.should_continue then runFlatLoop execTool reflect plan fuel sc st'
      else .ok (sc, st')

/-- `Agent.run_task` with `planning_style = "plan_execute"`: the flat plan is
produced by the LLM planner (an external collaborator; here a parameter),
`plan_start` is traced, the loop runs from `step_count = 0`, the terminal
status is computed and `done` is traced. Memory, metrics and cost sinks are
external collaborators and omitted. -/
def run_task_flat (execTool : String → Args → SkillResult)
    (reflect : Nat → ReflectionResult) (goal : String) (plan : List FlatStep)
    (max_steps : Int) : Except String AgentResult :=
  match runFlatLoop execTool reflect plan max_steps.toNat 0
      ⟨[TraceEvent.plan_start goal], []⟩ with
  | .error e => .error e
  | .ok (step_count, st) =>
    let status := finalStatus step_count max_steps st.steps_taken
    .ok ⟨status, st.steps_taken, st.trace ++ [TraceEvent.done status]⟩

/-- Python `skill.split('.')[0]`: the prefix before the first dot. -/
def splitDotHead (s : String) : String :=
  String.mk (s.toList.takeWhile (fun c => c != '.'))

/-- agent.py line 146: the nodes with status "pending" whose predecessors
(sources of edges into the node; `build_plan` only draws edges between added
nodes) all have status "done". -/
def pendingNodes (g : PlanGraph) : List PlanNode :=
  g.nodes.filter (fun n =>
    n.status == "pending" &&
    (g.edges.filter (fun e => e.2 == n.id)).all (fun e =>
      (((g.nodes.find? (fun m => m.id == e.1)).map PlanNode.status).getD "") == "done"))

/-- The run-local state threaded through the hierarchical-mode loop:
the shared approval store, the fresh-id counter (standing for uuid4
generation), the trace and the step history. -/
structure GraphState where
  approvals : ApprovalStore
  fresh : Nat
  trace : List TraceEvent
  steps_taken : List AgentStep
deriving DecidableEq

/-- The status every approval item created by a run carries afterwards:
auto-approved under the NullProvider, otherwise still pending forever (nothing
in the loop resolves it). -/
def gateStatus (providerIsNull : Bool) : String :=
  if providerIsNull then "approved" else "pending"

/-- agent.py lines 162-170, the "HITL approvals for risky actions" block: when
the unit's skill name is a key of the configured risky actions, create one
`ApprovalItem` (fresh id, status "pending"), trace it, and — only when the
provider is the `NullProvider` — approve it immediately; for any other
provider the source merely sleeps 0.1s. Nothing afterwards reads the item's
status. -/
def gateStep (risky : List (String × String)) (providerIsNull : Bool)
    (skillName : String) (st : GraphState) : GraphState :=
  match risky.find? (fun a => a.1 == skillName) with
  | none => st
  | some a =>
    let id := toString st.fresh
    let created := ApprovalStore.create st.approvals id skillName a.2 0 none
    let approvals :=
      if providerIsNull then (ApprovalStore.approve created.1 id).1 else created.1
    ⟨approvals, st.fresh + 1,
     st.trace ++ [TraceEvent.approval id skillName a.2], st.steps_taken⟩

/-- The body of one hierarchical iteration on node `node` at step number `sc`:
apply the approval gate, dispatch the skill, trace the tool call, and append
the step record (`tool_name` is `skill.split('.')[0]`, feedback comes from the
deterministic stub `reflect`). Node statuses are never written. -/
def iterStep (risky : List (String × String)) (providerIsNull : Bool)
    (execSkill : String → Args → SkillResult) (reflect : Nat → ReflectionResult)
    (node : PlanNode) (sc : Int) (st : GraphState) : GraphState :=
  let st1 := gateStep risky providerIsNull node.skill st
  let result := execSkill node.skill node.args
  let refl := reflect sc.toNat
  ⟨st1.approvals, st1.fresh,
   st1.trace ++ [TraceEvent.tool_call node.skill node.args result],
   st1.steps_taken ++ [⟨sc, splitDotHead node.skill, node.args, result, refl⟩]⟩

/-- The while loop of `Agent.run_task` in hierarchical mode. Each iteration
increments `step_count`, takes the first pending node whose predecessors are
all done (breaking when none exists, with `step_count` already incremented),
runs `iterStep` on it, and continues while the feedback stub says to.
`execSkill` is the outcome of `SkillsRegistry.execute` for the run's registry
(assumed not to raise). -/
def runGraphLoop (risky : List (String × String)) (providerIsNull : Bool)
    (execSkill : String → Args → SkillResult) (reflect : Nat → ReflectionResult)
    (g : PlanGraph) : Nat → Int → GraphState → Int × GraphState
  | 0, step_count, st => (step_count, st)
  | fuel + 1, step_count, st =>
    let sc := step_count + 1
    match pendingNodes g with
    | [] => (sc, st)
    | node :: _ =>
      let st2 := iterStep risky providerIsNull execSkill reflect node sc st
      if (reflect sc.toNat).should_continue then
        runGraphLoop risky providerIsNull execSkill reflect g fuel sc st2
      else (sc, st2)

/-- The outcome of a hierarchical run: the agent result, the shared approval
store afterwards, and the graph's node records when the run ends (the loop
never writes to them). -/
structure GraphRunResult where
  result : AgentResult
  approvals : ApprovalStore
  nodes : List PlanNode
deriving DecidableEq

/-- `Agent.run_task` in hierarchical mode: `plan_start` and the built graph
are traced, the loop runs from `step_count = 0` over the shared approval store
`store0`, the terminal status is computed and `done` is traced. -/
def run_task_graph (risky : List (String × String)) (providerIsNull : Bool)
    (execSkill : String → Args → SkillResult) (reflect : Nat → ReflectionResult)
    (goal : String) (g : PlanGraph) (max_steps : Int) (store0 : ApprovalStore) :
    GraphRunResult :=
  let st0 : GraphState :=
    ⟨store0, 0, [TraceEvent.plan_start goal, TraceEvent.plan_graph g.nodes g.edges], []⟩
  let r := runGraphLoop risky providerIsNull execSkill reflect g max_steps.toNat 0 st0
  let status := finalStatus r.1 max_steps r.2.steps_taken
  ⟨⟨status, r.2.steps_taken, r.2.trace ++ [TraceEvent.done status]⟩, r.2.approvals, g.nodes⟩

/-- The names of the `tool_call` events of a trace, in order: one per
dispatched unit of work. -/
def toolCallNames : List TraceEvent → List String
  | [] => []
  | TraceEvent.tool_call n _ _ :: rest => n :: toolCallNames rest
  | _ :: rest => toolCallNames rest

/-! ## Concrete fixtures used by counterexamples, failing inputs and witnesses -/

/-- A tool/skill execution stub that always succeeds. -/
def alwaysOk : String → Args → SkillResult := fun _ _ => ⟨true, none⟩

/-- A deterministic feedback stub: usefulness 0.5 and always continue — the
defaults `reflection._parse_reflection_response` starts from. -/
def reflectContinue : Nat → ReflectionResult := fun _ => ⟨1 / 2, true⟩

/-- A one-step flat plan. -/
def flatPlan1 : List FlatStep := [⟨"web", [("url", "https://example.com")], "fetch the page"⟩]

/-- An approval store holding a single already-rejected item. -/
def c5Store : ApprovalStore := [⟨"a", "fs.write", "mutation", 0, "rejected", none⟩]

/-- A skill whose execution raises (`Except.error "boom"`). -/
def boomSkill : Skill := ⟨"boom.skill", fun _ => true, fun _ _ => .error "boom"⟩

/-- A registry holding only `boomSkill`. -/
def c6Registry : SkillsDict := SkillsRegistry.register [] boomSkill

/-- A throwaway skill context. -/
def ctx0 : SkillContext := ⟨"s"⟩

/-- Two distinct skills sharing one name: the second registration overwrites
the first. -/
def skillV1 : Skill := ⟨"x.skill", fun _ => true, fun _ _ => .ok ⟨true, none⟩⟩

/-- See `skillV1`. -/
def skillV2 : Skill := ⟨"x.skill", fun _ => true, fun _ _ => .ok ⟨false, some "v2"⟩⟩

/-- Registry after registering `skillV1`. -/
def c7Reg1 : SkillsDict := SkillsRegistry.register [] skillV1

/-- Registry after registering `skillV1` then `skillV2` (same name). -/
def c7Reg2 : SkillsDict := SkillsRegistry.register c7Reg1 skillV2

/-- The three-node linear graph of the "save" goal with all three skills
allowed: web.fetch → python.run → fs.write. -/
def graph3 : PlanGraph := build_plan ["web.fetch", "python.run", "fs.write"] "Research and save"

/-- The graph of the "save" goal when only web.fetch is allowed: one node. -/
def graphFetch : PlanGraph := build_plan ["web.fetch"] "Research and save"

/-- A risky-action configuration gating web.fetch. -/
def riskyFetch : List (String × String) := [("web.fetch", "network access")]

/-! ## Helper lemmas -/

/-- Setting the status of the item stored under `i` leaves lookups of any other
id unchanged. -/
theorem get_setStatus_ne (s : ApprovalStore) (i j st : String) (h : ¬ j = i) :
    ApprovalStore.get (ApprovalStore.setStatus s i st) j = ApprovalStore.get s j := by
  induction s with
  | nil => rfl
  | cons a t ih =>
    by_cases ha : a.id == i
    · have hai : a.id = i := by simpa using ha
      have hij : ¬ i = j := fun hij => h hij.symm
      simp [ApprovalStore.setStatus, ApprovalStore.get, ha, hai, hij, ih]
    · simp [ApprovalStore.setStatus, ApprovalStore.get, ha, ih]

/-- Setting the status of the item stored under `i` makes lookup of `i` return
the looked-up item with that status. -/
theorem get_setStatus_self (s : ApprovalStore) (i st : String) :
    ApprovalStore.get (ApprovalStore.setStatus s i st) i =
      (ApprovalStore.get s i).map (fun it => { it with status := st }) := by
  induction s with
  | nil => rfl
  | cons a t ih =>
    by_cases ha : a.id == i
    · simp [ApprovalStore.setStatus, ApprovalStore.get, ha]
    · simp [ApprovalStore.setStatus, ApprovalStore.get, ha, ih]

/-- Dict assignment to an existing key does not change the key list. -/
theorem names_dictSet (d : SkillsDict) (k : String) (v : Skill)
    (h : (SkillsRegistry.get d k).isSome = true) :
    SkillsRegistry.names (dictSet d k v) = SkillsRegistry.names d := by
  induction d with
  | nil => simp [SkillsRegistry.get] at h
  | cons a t ih =>
    by_cases ha : a.1 == k
    · have : a.1 = k := by simpa using ha
      simp [dictSet, SkillsRegistry.names, ha, this]
    · have h' : (SkillsRegistry.get t k).isSome = true := by
        simpa [SkillsRegistry.get, ha] using h
      have ih' := ih h'
      simp only [SkillsRegistry.names] at ih'
      simp [dictSet, SkillsRegistry.names, ha, ih']

/-- After a dict assignment, looking the key up yields the assigned value. -/
theorem get_dictSet_self (d : SkillsDict) (k : String) (v : Skill) :
    SkillsRegistry.get (dictSet d k v) k = some v := by
  induction d with
  | nil => simp [dictSet, SkillsRegistry.get]
  | cons a t ih =>
    by_cases ha : a.1 == k
    · simp [dictSet, SkillsRegistry.get, ha]
    · simp [dictSet, SkillsRegistry.get, ha, ih]

/-- `toolCallNames` distributes over trace concatenation. -/
theorem toolCallNames_append (l1 l2 : List TraceEvent) :
    toolCallNames (l1 ++ l2) = toolCallNames l1 ++ toolCallNames l2 := by
  induction l1 with
  | nil => rfl
  | cons e t ih => cases e <;> simp [toolCallNames, ih]

/-- Reading back after a sequence of appends: the file grows by exactly the
stamped events, in order. -/
theorem read_appendAll (run_id : String) (events : List (Args × Nat)) :
    ∀ d : TraceDir,
      TraceReader.read (TraceWriter.appendAll d run_id events) run_id =
        TraceReader.read d run_id ++ events.map (fun e => StoredEvent.mk e.1 e.2) := by
  induction events with
  | nil => intro d; simp [TraceWriter.appendAll, TraceReader.read]
  | cons e rest ih =>
    intro d
    have h1 : TraceWriter.appendAll d run_id (e :: rest) =
        TraceWriter.appendAll (TraceWriter.append d run_id e.1 e.2) run_id rest := rfl
    rw [h1, ih]
    simp [TraceReader.read, TraceWriter.append]

/-! ## Claims -/

/-- Claim C5, counterexample: `approve` on an already-rejected item returns
true and flips the item's status to "approved"; the claim requires the call to
return false and leave every status unchanged. -/
theorem C5_counterexample :
    ApprovalStore.approve c5Store "a" =
      ([⟨"a", "fs.write", "mutation", 0, "approved", none⟩], true) ∧
    (ApprovalStore.approve c5Store "a").1 ≠ c5Store ∧
    (ApprovalStore.approve c5Store "a").2 ≠ false := by
  exact ⟨by decide, by decide, by decide⟩

/-- Claim C5 (amended): `approve`/`reject` return false and change nothing
when the id is unknown; when the id exists they return true and set that
item's status to "approved"/"rejected" regardless of its current status — an
already-resolved item is flipped rather than left alone — and they never
change any other item. -/
theorem C5_amended_approve_reject (s : ApprovalStore) (i : String) :
    (ApprovalStore.get s i = none →
      ApprovalStore.approve s i = (s, false) ∧ ApprovalStore.reject s i = (s, false)) ∧
    (∀ it, ApprovalStore.get s i = some it →
      (ApprovalStore.approve s i).2 = true ∧
      ApprovalStore.get (ApprovalStore.approve s i).1 i = some { it with status := "approved" } ∧
      (ApprovalStore.reject s i).2 = true ∧
      ApprovalStore.get (ApprovalStore.reject s i).1 i = some { it with status := "rejected" }) ∧
    (∀ j, ¬ j = i →
      ApprovalStore.get (ApprovalStore.approve s i).1 j = ApprovalStore.get s j ∧
      ApprovalStore.get (ApprovalStore.reject s i).1 j = ApprovalStore.get s j) := by
  refine ⟨?_, ?_, ?_⟩
  · intro h
    constructor <;> simp [ApprovalStore.approve, ApprovalStore.reject, h]
  · intro it h
    refine ⟨?_, ?_, ?_, ?_⟩ <;>
      simp [ApprovalStore.approve, ApprovalStore.reject, h, get_setStatus_self]
  · intro j hj
    cases hgi : ApprovalStore.get s i with
    | none => simp [ApprovalStore.approve, ApprovalStore.reject, hgi]
    | some it =>
      exact ⟨by simp [ApprovalStore.approve, hgi, get_setStatus_ne s i j _ hj],
             by simp [ApprovalStore.reject, hgi, get_setStatus_ne s i j _ hj]⟩

/-- Witness for C5 (amended) on a concrete pending item. -/
theorem C5_amended_witness :
    (ApprovalStore.approve [⟨"b", "web.fetch", "network", 0, "pending", none⟩] "b").2 = true ∧
    ApprovalStore.get
        (ApprovalStore.approve [⟨"b", "web.fetch", "network", 0, "pending", none⟩] "b").1 "b" =
      some ⟨"b", "web.fetch", "network", 0, "approved", none⟩ := by
  have h := C5_amended_approve_reject [⟨"b", "web.fetch", "network", 0, "pending", none⟩] "b"
  exact ⟨(h.2.1 ⟨"b", "web.fetch", "network", 0, "pending", none⟩ rfl).1,
         (h.2.1 ⟨"b", "web.fetch", "network", 0, "pending", none⟩ rfl).2.1⟩

/-- Claim C6, counterexample: a registered skill whose execution raises
propagates the exception out of `execute` instead of yielding a
success=false result. -/
theorem C6_counterexample :
    SkillsRegistry.execute c6Registry "boom.skill" ctx0 [] = .error "boom" := rfl

/-- Claim C6 (amended): `execute` converts an unknown capability name and an
argument-validation failure into success=false results, but whatever the
capability's own run does is returned unchanged — an exception raised by the
capability propagates to the caller. -/
theorem C6_amended_execute (d : SkillsDict) (name : String) (ctx : SkillContext) (args : Args) :
    (SkillsRegistry.get d name = none →
      SkillsRegistry.execute d name ctx args = .ok ⟨false, some ("Unknown skill: " ++ name)⟩) ∧
    (∀ skill, SkillsRegistry.get d name = some skill → skill.validArgs args = false →
      SkillsRegistry.execute d name ctx args = .ok ⟨false, some "Invalid args"⟩) ∧
    (∀ skill, SkillsRegistry.get d name = some skill → skill.validArgs args = true →
      SkillsRegistry.execute d name ctx args = skill.run ctx args) := by
  refine ⟨?_, ?_, ?_⟩
  · intro h; simp [SkillsRegistry.execute, h]
  · intro skill h hv; simp [SkillsRegistry.execute, h, hv]
  · intro skill h hv; simp [SkillsRegistry.execute, h, hv]

/-- Witness for C6 (amended): on the raising skill, `execute` returns exactly
what the skill's run returns. -/
theorem C6_amended_witness :
    SkillsRegistry.execute c6Registry "boom.skill" ctx0 [] = boomSkill.run ctx0 [] := by
  have h := C6_amended_execute c6Registry "boom.skill" ctx0 []
  exact h.2.2 boomSkill rfl rfl

/-- Claim C7, counterexample: registering a second skill under an
already-registered name does not fail — no `DuplicateCapability` exists in the
code — the dict assignment silently replaces the first skill, observable
through `execute`. -/
theorem C7_counterexample :
    SkillsRegistry.names c7Reg2 = ["x.skill"] ∧
    SkillsRegistry.execute c7Reg2 "x.skill" ctx0 [] = .ok ⟨false, some "v2"⟩ ∧
    SkillsRegistry.execute c7Reg1 "x.skill" ctx0 [] = .ok ⟨true, none⟩ := by
  exact ⟨rfl, rfl, rfl⟩

/-- Claim C7 (amended): registering a capability whose name is already
registered silently overwrites the entry: the list of resolvable capability
names is unchanged and the name now resolves to the new skill; no failure
occurs (registration is a total dict assignment). -/
theorem C7_amended_register_overwrites (d : SkillsDict) (s : Skill)
    (h : (SkillsRegistry.get d s.name).isSome = true) :
    SkillsRegistry.names (SkillsRegistry.register d s) = SkillsRegistry.names d ∧
    SkillsRegistry.get (SkillsRegistry.register d s) s.name = some s :=
  ⟨names_dictSet d s.name s h, get_dictSet_self d s.name s⟩

/-- Witness for C7 (amended) on the concrete duplicate registration. -/
theorem C7_amended_witness :
    SkillsRegistry.names (SkillsRegistry.register c7Reg1 skillV2) = SkillsRegistry.names c7Reg1 ∧
    SkillsRegistry.get (SkillsRegistry.register c7Reg1 skillV2) skillV2.name = some skillV2 := by
  exact C7_amended_register_overwrites c7Reg1 skillV2 rfl

/-- Claim C9: trace round-trip — for every run id and finite sequence of
events appended through the trace writer to a fresh (empty or absent) run
file, an independent reader for the same run id yields exactly the appended
(timestamp-stamped) events, in append order. -/
theorem C9_trace_roundtrip (d : TraceDir) (run_id : String) (events : List (Args × Nat))
    (h : TraceReader.read d run_id = []) :
    TraceReader.read (TraceWriter.appendAll d run_id events) run_id =
      events.map (fun e => StoredEvent.mk e.1 e.2) := by
  rw [read_appendAll, h, List.nil_append]

/-- Witness for C9 on a concrete two-event sequence. -/
theorem C9_trace_roundtrip_witness :
    TraceReader.read
        (TraceWriter.appendAll (fun _ => [])
          "run_7" [([("type", "plan_start")], 3), ([("type", "done")], 4)]) "run_7" =
      [⟨[("type", "plan_start")], 3⟩, ⟨[("type", "done")], 4⟩] := by
  exact C9_trace_roundtrip (fun _ => []) "run_7"
    [([("type", "plan_start")], 3), ([("type", "done")], 4)] rfl

/-- Claim C10: the empty allow-list is unrestricted for the registry — all
five builtins are registered — yet filters everything out in the hierarchical
planner — no goal produces any node. -/
theorem C10_empty_allowlist_asymmetry :
    SkillsRegistry.names (SkillsRegistry.load_builtins []) =
      ["web.fetch", "fs.read", "fs.write", "python.run", "rag.search"] ∧
    ∀ goal, (build_plan [] goal).nodes = [] := by
  constructor
  · rfl
  · intro goal
    unfold build_plan
    cases h : containsSave goal
    · rw [candidateSteps, if_neg (by simp [h])]
      rfl
    · rw [candidateSteps, if_pos (by simp [h])]
      rfl

/-- Claim C4, counterexample: a flat-mode run with max_steps = 0 takes zero
steps but terminates with status "stopped" (the post-loop check
`step_count >= max_steps` holds at 0 ≥ 0), not "failure" as claimed. -/
theorem C4_counterexample :
    run_task_flat alwaysOk reflectContinue "goal" flatPlan1 0 =
      .ok ⟨"stopped", [], [TraceEvent.plan_start "goal", TraceEvent.done "stopped"]⟩ ∧
    "stopped" ≠ "failure" := ⟨rfl, by decide⟩

/-- Claim C4 (amended): a run invoked with max_steps ≤ 0 takes zero steps and
terminates with status "stopped" — never "success" and never "failure" — in
both planning modes. -/
theorem C4_amended_nonpositive_max_steps (execTool : String → Args → SkillResult)
    (reflect : Nat → ReflectionResult) (goal : String) (plan : List FlatStep)
    (ms : Int) (hms : ms ≤ 0) (risky : List (String × String)) (isNull : Bool)
    (execSkill : String → Args → SkillResult) (g : PlanGraph) (store0 : ApprovalStore) :
    run_task_flat execTool reflect goal plan ms =
      .ok ⟨"stopped", [], [TraceEvent.plan_start goal, TraceEvent.done "stopped"]⟩ ∧
    (run_task_graph risky isNull execSkill reflect goal g ms store0).result.status = "stopped" ∧
    (run_task_graph risky isNull execSkill reflect goal g ms store0).result.steps_taken = [] := by
  have h0 : ms.toNat = 0 := Int.toNat_of_nonpos hms
  have hfs : finalStatus 0 ms [] = "stopped" := by simp [finalStatus, hms]
  refine ⟨?_, ?_, ?_⟩ <;>
    simp [run_task_flat, run_task_graph, h0, runFlatLoop, runGraphLoop, hfs]

/-- Witness for C4 (amended) at max_steps = -3. -/
theorem C4_amended_witness :
    run_task_flat alwaysOk reflectContinue "g" flatPlan1 (-3) =
      .ok ⟨"stopped", [], [TraceEvent.plan_start "g", TraceEvent.done "stopped"]⟩ ∧
    (run_task_graph [] true alwaysOk reflectContinue "g" graph3 (-3) []).result.status =
      "stopped" ∧
    (run_task_graph [] true alwaysOk reflectContinue "g" graph3 (-3) []).result.steps_taken =
      [] := by
  exact C4_amended_nonpositive_max_steps alwaysOk reflectContinue "g" flatPlan1 (-3)
    (by decide) [] true alwaysOk graph3 []

/-- Claim C3, the code at the failing input: a flat plan of one step with
max_steps = 2 and an always-continue feedback stub. Instead of executing
min(1, 2) = 1 step and returning a terminal status, the second iteration falls
into the hierarchical branch and reads the never-assigned local `graph`: the
run raises UnboundLocalError and produces no result at all. -/
theorem C3_code_bug_flat_run_crashes :
    run_task_flat alwaysOk reflectContinue "goal" flatPlan1 2 =
      .error "UnboundLocalError: local variable graph referenced before assignment" := rfl

/-- Claim C2, the code at the failing input: the 3-node linear graph
(web.fetch → python.run → fs.write) with every skill allowed, every execution
succeeding, always-continue feedback, and the default max_steps = 10. The loop
never writes any node status, so the first node stays "pending" and is
re-executed on all 10 iterations, the run ends "stopped", and every node is
still "pending" — not "done" as claimed, and not executed at most once. -/
theorem C2_code_bug_no_status_update :
    (run_task_graph [] true alwaysOk reflectContinue "Research and save" graph3 10
        []).nodes.map PlanNode.status = ["pending", "pending", "pending"] ∧
    toolCallNames
        ((run_task_graph [] true alwaysOk reflectContinue "Research and save" graph3 10
          []).result.trace) = List.replicate 10 "web.fetch" ∧
    (run_task_graph [] true alwaysOk reflectContinue "Research and save" graph3 10
        []).result.status = "stopped" ∧
    (run_task_graph [] true alwaysOk reflectContinue "Research and save" graph3 10
        []).result.steps_taken.length = 10 := by
  exact ⟨by decide, by decide, by decide, by decide⟩

/-- Claim C1, counterexample: a run whose single node's skill web.fetch is
configured risky, with auto-approval off (provider not the NullProvider).
Exactly one ApprovalItem is created, but the step is dispatched — a tool_call
for web.fetch is traced — while the item's status is still "pending": the
scheduler does not block until approval, and a rejection could never mark the
step failed, because execution has already happened. -/
theorem C1_counterexample :
    (run_task_graph riskyFetch false alwaysOk reflectContinue "Research and save" graphFetch 1
        []).approvals = [⟨"0", "web.fetch", "network access", 0, "pending", none⟩] ∧
    toolCallNames
        ((run_task_graph riskyFetch false alwaysOk reflectContinue "Research and save"
          graphFetch 1 []).result.trace) = ["web.fetch"] ∧
    (run_task_graph riskyFetch false alwaysOk reflectContinue "Research and save" graphFetch 1
        []).result.steps_taken.length = 1 := by
  exact ⟨by decide, by decide, by decide⟩

/-- The builder loop keeps exactly the allowed candidates, in order, appended
to the accumulated nodes. -/
theorem buildChainAux_nodes (allowed : List String) :
    ∀ (steps : List PlanNode) (prev : Option PlanNode) (g : PlanGraph),
      (buildChainAux allowed prev g steps).nodes =
        g.nodes ++ steps.filter (fun n => allowed.contains n.skill) := by
  intro steps
  induction steps with
  | nil => intro prev g; simp [buildChainAux]
  | cons node rest ih =>
    intro prev g
    by_cases h : node.skill ∈ allowed
    · simp [buildChainAux, h, ih, List.filter_cons]
    · simp [buildChainAux, h, ih, List.filter_cons]

/-- The builder loop produces exactly the linear-chain edges over the
surviving candidates (continuing the chain from `prev`). -/
theorem buildChainAux_edges (allowed : List String) :
    ∀ (steps : List PlanNode) (prev : Option PlanNode) (g : PlanGraph),
      (buildChainAux allowed prev g steps).edges =
        g.edges ++ chainEdgesFrom prev (steps.filter (fun n => allowed.contains n.skill)) := by
  intro steps
  induction steps with
  | nil => intro prev g; cases prev <;> simp [buildChainAux, chainEdgesFrom, chainEdges]
  | cons node rest ih =>
    intro rev g
    by_cases h : node.skill ∈ allowed
    · cases rev with
      | none =>
        simp [buildChainAux, h, ih, List.filter_cons, chainEdgesFrom]
      | some p =>
        simp [buildChainAux, h, ih, List.filter_cons, chainEdgesFrom, chainEdges]
    · cases rev <;> simp [buildChainAux, h, ih, List.filter_cons, chainEdgesFrom]

/-- Chain edges over an id-sorted node list go from smaller to larger id and
have both endpoints in the list. -/
theorem chainEdges_sorted :
    ∀ (l : List PlanNode), l.Pairwise (fun a b => a.id < b.id) →
      ∀ e ∈ chainEdges l,
        e.1 < e.2 ∧ (∃ a ∈ l, a.id = e.1) ∧ (∃ b ∈ l, b.id = e.2) := by
  intro l
  induction l with
  | nil => intro _ e he; simp [chainEdges] at he
  | cons a rest ih =>
    cases rest with
    | nil => intro _ e he; simp [chainEdges] at he
    | cons b rest2 =>
      intro hp e he
      rw [chainEdges] at he
      rcases List.mem_cons.mp he with h1 | h2
      · subst h1
        refine ⟨?_, ⟨a, by simp, rfl⟩, ⟨b, by simp, rfl⟩⟩
        exact (List.pairwise_cons.mp hp).1 b (by simp)
      · have hrec := ih (List.pairwise_cons.mp hp).2 e h2
        refine ⟨hrec.1, ?_, ?_⟩
        · obtain ⟨x, hx, hxe⟩ := hrec.2.1
          exact ⟨x, List.mem_cons_of_mem a hx, hxe⟩
        · obtain ⟨x, hx, hxe⟩ := hrec.2.2
          exact ⟨x, List.mem_cons_of_mem a hx, hxe⟩

/-- The builder's candidate lists are sorted by node id. -/
theorem candidateSteps_sorted (goal : String) :
    (candidateSteps goal).Pairwise (fun a b => a.id < b.id) := by
  unfold candidateSteps
  cases h : containsSave goal
  · rw [if_neg (by simp [h])]
    simp
  · rw [if_pos (by simp [h])]
    simp [List.pairwise_cons]

/-- Claim C8: for every goal and every non-empty allow-list, `build_plan`
keeps exactly the candidate nodes whose skill is allowed, preserving their
relative order, and connects the survivors as a linear chain; every edge goes
from a smaller to a larger node id (so the edge set is acyclic) and both
endpoints are nodes of the graph. In particular, excluding python.run from the
fetch → transform → write plan leaves exactly fetch and write connected
directly. -/
theorem C8_build_plan_filters_and_chains (allowed : List String) (goal : String)
    (hne : allowed ≠ []) :
    (build_plan allowed goal).nodes =
      (candidateSteps goal).filter (fun n => allowed.contains n.skill) ∧
    (build_plan allowed goal).edges =
      chainEdges ((candidateSteps goal).filter (fun n => allowed.contains n.skill)) ∧
    (∀ e ∈ (build_plan allowed goal).edges,
      e.1 < e.2 ∧ (∃ a ∈ (build_plan allowed goal).nodes, a.id = e.1) ∧
      (∃ b ∈ (build_plan allowed goal).nodes, b.id = e.2)) ∧
    ((build_plan ["web.fetch", "fs.write"] "Research and save").nodes.map PlanNode.skill =
        ["web.fetch", "fs.write"] ∧
     (build_plan ["web.fetch", "fs.write"] "Research and save").edges = [(0, 2)]) := by
  have hn : (build_plan allowed goal).nodes =
      (candidateSteps goal).filter (fun n => allowed.contains n.skill) := by
    simpa using buildChainAux_nodes allowed (candidateSteps goal) none ⟨[], []⟩
  have he : (build_plan allowed goal).edges =
      chainEdges ((candidateSteps goal).filter (fun n => allowed.contains n.skill)) := by
    simpa [chainEdgesFrom] using buildChainAux_edges allowed (candidateSteps goal) none ⟨[], []⟩
  refine ⟨hn, he, ?_, by decide, by decide⟩
  intro e hee
  rw [he] at hee
  have hp := (candidateSteps_sorted goal).filter (fun n => allowed.contains n.skill)
  have hres := chainEdges_sorted _ hp e hee
  refine ⟨hres.1, ?_, ?_⟩
  · obtain ⟨x, hx, hxe⟩ := hres.2.1
    exact ⟨x, by rw [hn]; exact hx, hxe⟩
  · obtain ⟨x, hx, hxe⟩ := hres.2.2
    exact ⟨x, by rw [hn]; exact hx, hxe⟩

/-- Witness for C8 on the concrete filtered scenario. -/
theorem C8_witness :
    (build_plan ["web.fetch", "fs.write"] "Research and save").nodes.map PlanNode.skill =
      ["web.fetch", "fs.write"] ∧
    (build_plan ["web.fetch", "fs.write"] "Research and save").edges = [(0, 2)] := by
  exact (C8_build_plan_filters_and_chains ["web.fetch", "fs.write"] "Research and save"
    (by decide)).2.2.2

/-- The approval gate never touches the step history. -/
theorem gateStep_steps_taken (risky : List (String × String)) (isNull : Bool)
    (sk : String) (st : GraphState) :
    (gateStep risky isNull sk st).steps_taken = st.steps_taken := by
  unfold gateStep
  cases risky.find? (fun a => a.1 == sk) <;> rfl

/-- With no risky actions configured, the gate is the identity. -/
theorem gateStep_nil (isNull : Bool) (sk : String) (st : GraphState) :
    gateStep [] isNull sk st = st := rfl

/-- `setStatus` keeps the store size. -/
theorem setStatus_length (s : ApprovalStore) (i st : String) :
    (ApprovalStore.setStatus s i st).length = s.length := by
  induction s with
  | nil => rfl
  | cons a t ih => simp [ApprovalStore.setStatus, ih]

/-- `approve` keeps the store size. -/
theorem approve_fst_length (s : ApprovalStore) (i : String) :
    (ApprovalStore.approve s i).1.length = s.length := by
  unfold ApprovalStore.approve
  cases ApprovalStore.get s i
  · rfl
  · simp [setStatus_length]

/-- The gate grows the approval store by one item exactly when the skill name
is configured risky. -/
theorem gateStep_approvals_length (risky : List (String × String)) (isNull : Bool)
    (sk : String) (st : GraphState) :
    (gateStep risky isNull sk st).approvals.length =
      st.approvals.length + (if risky.any (fun a => a.1 == sk) then 1 else 0) := by
  unfold gateStep
  cases hf : risky.find? (fun a => a.1 == sk) with
  | none =>
    have hany : risky.any (fun a => a.1 == sk) = false := by
      rw [List.any_eq_false]
      intro a ha
      simpa using List.find?_eq_none.mp hf a ha
    simp [hany]
  | some a =>
    have hany : risky.any (fun a => a.1 == sk) = true := by
      rw [List.any_eq_true]
      exact ⟨a, List.mem_of_find?_eq_some hf, by simpa using List.find?_some hf⟩
    cases isNull <;>
      simp [hany, ApprovalStore.create, approve_fst_length, setStatus_length]

/-- The gate traces no tool_call event. -/
theorem gateStep_toolCallNames (risky : List (String × String)) (isNull : Bool)
    (sk : String) (st : GraphState) :
    toolCallNames (gateStep risky isNull sk st).trace = toolCallNames st.trace := by
  unfold gateStep
  cases risky.find? (fun a => a.1 == sk) with
  | none => rfl
  | some a => simp [toolCallNames_append, toolCallNames]

/-- Looking up the id of a freshly appended item succeeds. -/
theorem get_append_isSome (s : ApprovalStore) (item : ApprovalItem) :
    (ApprovalStore.get (s ++ [item]) item.id).isSome = true := by
  induction s with
  | nil => simp [ApprovalStore.get]
  | cons a t ih =>
    by_cases ha : a.id == item.id <;> simp [ApprovalStore.get, ha, ih]

/-- Approving the id of an item just appended to an all-approved store leaves
every item approved. -/
theorem setStatus_append_all_approved (s : ApprovalStore) (item : ApprovalItem)
    (h : s.all (fun it => it.status == "approved") = true) :
    (ApprovalStore.setStatus (s ++ [item]) item.id "approved").all
      (fun it => it.status == "approved") = true := by
  induction s with
  | nil => simp [ApprovalStore.setStatus]
  | cons a t ih =>
    rw [List.all_cons, Bool.and_eq_true] at h
    rw [List.cons_append, ApprovalStore.setStatus, List.all_cons, Bool.and_eq_true]
    refine ⟨?_, ih h.2⟩
    by_cases ha : a.id == item.id <;> simp [ha, h.1]

/-- The gate preserves the invariant that every item in the store has the
status run-created items get (approved under the NullProvider, pending
otherwise). -/
theorem gateStep_status_all (risky : List (String × String)) (isNull : Bool)
    (sk : String) (st : GraphState)
    (h : st.approvals.all (fun it => it.status == gateStatus isNull) = true) :
    (gateStep risky isNull sk st).approvals.all
      (fun it => it.status == gateStatus isNull) = true := by
  unfold gateStep
  cases hf : risky.find? (fun a => a.1 == sk) with
  | none => exact h
  | some a =>
    cases isNull with
    | false =>
      simp only [gateStatus, Bool.false_eq_true, if_false] at h ⊢
      simp [ApprovalStore.create, List.all_append, h]
    | true =>
      simp only [gateStatus, if_true] at h ⊢
      simp only [ApprovalStore.create, Bool.if_true_left]
      unfold ApprovalStore.approve
      cases hget : ApprovalStore.get (st.approvals ++
          [⟨toString st.fresh, sk, a.2, 0, "pending", none⟩]) (toString st.fresh) with
      | none =>
        have := get_append_isSome st.approvals ⟨toString st.fresh, sk, a.2, 0, "pending", none⟩
        rw [hget] at this
        simp at this
      | some it =>
        exact setStatus_append_all_approved st.approvals
          ⟨toString st.fresh, sk, a.2, 0, "pending", none⟩ h

/-- The executed steps and the step count of the hierarchical loop are
independent of the risky-action configuration: gating feeds nothing back into
node selection, dispatch or feedback. -/
theorem runGraphLoop_indep (risky : List (String × String)) (isNull : Bool)
    (exec : String → Args → SkillResult) (reflect : Nat → ReflectionResult)
    (g : PlanGraph) :
    ∀ (fuel : Nat) (sc : Int) (s1 s2 : GraphState), s1.steps_taken = s2.steps_taken →
      (runGraphLoop risky isNull exec reflect g fuel sc s1).1 =
        (runGraphLoop [] isNull exec reflect g fuel sc s2).1 ∧
      (runGraphLoop risky isNull exec reflect g fuel sc s1).2.steps_taken =
        (runGraphLoop [] isNull exec reflect g fuel sc s2).2.steps_taken := by
  intro fuel
  induction fuel with
  | zero => intro sc s1 s2 h; exact ⟨rfl, h⟩
  | succ n ih =>
    intro sc s1 s2 h
    cases hp : pendingNodes g with
    | nil => simp [runGraphLoop, hp, h]
    | cons node rest =>
      have hsteps : (iterStep risky isNull exec reflect node (sc + 1) s1).steps_taken =
          (iterStep [] isNull exec reflect node (sc + 1) s2).steps_taken := by
        simp [iterStep, gateStep_steps_taken, h]
      cases hc : (reflect (sc + 1).toNat).should_continue with
      | false => simp [runGraphLoop, hp, hc, hsteps]
      | true =>
        simp only [runGraphLoop, hp, hc, if_true]
        exact ih (sc + 1) _ _ hsteps

/-- Accounting: across the hierarchical loop, the approval store grows by
exactly one item per traced tool call whose name is configured risky. -/
theorem runGraphLoop_count (risky : List (String × String)) (isNull : Bool)
    (exec : String → Args → SkillResult) (reflect : Nat → ReflectionResult)
    (g : PlanGraph) :
    ∀ (fuel : Nat) (sc : Int) (st : GraphState),
      (runGraphLoop risky isNull exec reflect g fuel sc st).2.approvals.length +
        (toolCallNames st.trace).countP (fun n => risky.any (fun a => a.1 == n)) =
      st.approvals.length +
        (toolCallNames (runGraphLoop risky isNull exec reflect g fuel sc st).2.trace).countP
          (fun n => risky.any (fun a => a.1 == n)) := by
  intro fuel
  induction fuel with
  | zero => intro sc st; simp [runGraphLoop]
  | succ n ih =>
    intro sc st
    cases hp : pendingNodes g with
    | nil => simp [runGraphLoop, hp]
    | cons node rest =>
      have hlen : (iterStep risky isNull exec reflect node (sc + 1) st).approvals.length =
          st.approvals.length +
            (if risky.any (fun a => a.1 == node.skill) then 1 else 0) := by
        simp [iterStep, gateStep_approvals_length]
      have htr : (toolCallNames (iterStep risky isNull exec reflect node (sc + 1) st).trace).countP
            (fun n => risky.any (fun a => a.1 == n)) =
          (toolCallNames st.trace).countP (fun n => risky.any (fun a => a.1 == n)) +
            (if risky.any (fun a => a.1 == node.skill) then 1 else 0) := by
        have hiter : (iterStep risky isNull exec reflect node (sc + 1) st).trace =
            (gateStep risky isNull node.skill st).trace ++
              [TraceEvent.tool_call node.skill node.args (exec node.skill node.args)] := rfl
        rw [hiter, toolCallNames_append, gateStep_toolCallNames]
        simp [toolCallNames, List.countP_append, List.countP_cons]
      cases hc : (reflect (sc + 1).toNat).should_continue with
      | false =>
        simp only [runGraphLoop, hp, hc, Bool.false_eq_true, if_false]
        rw [hlen, htr]
        omega
      | true =>
        simp only [runGraphLoop, hp, hc, if_true]
        have hrec := ih (sc + 1) (iterStep risky isNull exec reflect node (sc + 1) st)
        rw [hlen, htr] at hrec
        omega

/-- Every item of the approval store after the hierarchical loop still carries
the run-created status, provided every item before did. -/
theorem runGraphLoop_status_all (risky : List (String × String)) (isNull : Bool)
    (exec : String → Args → SkillResult) (reflect : Nat → ReflectionResult)
    (g : PlanGraph) :
    ∀ (fuel : Nat) (sc : Int) (st : GraphState),
      st.approvals.all (fun it => it.status == gateStatus isNull) = true →
      (runGraphLoop risky isNull exec reflect g fuel sc st).2.approvals.all
        (fun it => it.status == gateStatus isNull) = true := by
  intro fuel
  induction fuel with
  | zero => intro sc st h; exact h
  | succ n ih =>
    intro sc st h
    cases hp : pendingNodes g with
    | nil => simpa [runGraphLoop, hp] using h
    | cons node rest =>
      have hst2 : (iterStep risky isNull exec reflect node (sc + 1) st).approvals.all
          (fun it => it.status == gateStatus isNull) = true := by
        have : (iterStep risky isNull exec reflect node (sc + 1) st).approvals =
            (gateStep risky isNull node.skill st).approvals := rfl
        rw [this]
        exact gateStep_status_all risky isNull node.skill st h
      cases hc : (reflect (sc + 1).toNat).should_continue with
      | false => simpa [runGraphLoop, hp, hc] using hst2
      | true =>
        simp only [runGraphLoop, hp, hc, if_true]
        exact ih (sc + 1) _ hst2

/-- Claim C1 (amended): the approval gate never blocks and never alters
execution — a hierarchical run with risky actions configured produces exactly
the same step history and terminal status as the same run with no risky
actions — and, starting from an empty approval store, the run creates exactly
one ApprovalItem per dispatched risky step (counted through the traced tool
calls), every one of them auto-"approved" when the provider is the
NullProvider and left "pending" forever otherwise; a "rejected" status can
never block or fail a step. -/
theorem C1_amended_gate_never_blocks (risky : List (String × String)) (isNull : Bool)
    (exec : String → Args → SkillResult) (reflect : Nat → ReflectionResult)
    (goal : String) (g : PlanGraph) (ms : Int) :
    ((run_task_graph risky isNull exec reflect goal g ms []).result.steps_taken =
        (run_task_graph [] isNull exec reflect goal g ms []).result.steps_taken ∧
      (run_task_graph risky isNull exec reflect goal g ms []).result.status =
        (run_task_graph [] isNull exec reflect goal g ms []).result.status) ∧
    (run_task_graph risky isNull exec reflect goal g ms []).approvals.length =
      (toolCallNames (run_task_graph risky isNull exec reflect goal g ms
          []).result.trace).countP (fun n => risky.any (fun a => a.1 == n)) ∧
    (run_task_graph risky isNull exec reflect goal g ms []).approvals.all
      (fun it => it.status == gateStatus isNull) = true := by
  have hloop := runGraphLoop_indep risky isNull exec reflect g ms.toNat 0
    ⟨[], 0, [TraceEvent.plan_start goal, TraceEvent.plan_graph g.nodes g.edges], []⟩
    ⟨[], 0, [TraceEvent.plan_start goal, TraceEvent.plan_graph g.nodes g.edges], []⟩ rfl
  refine ⟨⟨hloop.2, ?_⟩, ?_, ?_⟩
  · show finalStatus _ ms _ = finalStatus _ ms _
    rw [hloop.1, hloop.2]
  · have hc := runGraphLoop_count risky isNull exec reflect g ms.toNat 0
      ⟨[], 0, [TraceEvent.plan_start goal, TraceEvent.plan_graph g.nodes g.edges], []⟩
    have htr : toolCallNames
        (run_task_graph risky isNull exec reflect goal g ms []).result.trace =
        toolCallNames (runGraphLoop risky isNull exec reflect g ms.toNat 0
          ⟨[], 0, [TraceEvent.plan_start goal, TraceEvent.plan_graph g.nodes g.edges],
            []⟩).2.trace := by
      show toolCallNames (_ ++ [TraceEvent.done _]) = _
      rw [toolCallNames_append]
      simp [toolCallNames]
    rw [htr]
    simpa [toolCallNames] using hc
  · exact runGraphLoop_status_all risky isNull exec reflect g ms.toNat 0
      ⟨[], 0, [TraceEvent.plan_start goal, TraceEvent.plan_graph g.nodes g.edges], []⟩ rfl

end AgentWorkbench
